import Mathlib

/-!
# Eclipse-timer core: a shallow embedding in Lean 4

This file embeds the numerical core of the eclipse-timer repository
(`packages/engine/src/math/{poly,bracket,root}.ts`, the contact solver in
`packages/engine/src/circumstances/compute.ts`, the time module
`packages/engine/src/time/{t0,utc}.ts`, the longitude/latitude vertex
normalisation of `packages/catalog/scripts/build_overlays_json.ts`, and the
fundamental-plane projector `packages/engine/src/geo/coords.ts`) and proves
or refutes the specification claims about it.

Modelling conventions:
* IEEE-754 doubles are modelled as exact rationals (`ℚ`).  Every finite
  double is a rational, and the algorithms under study only use field
  operations, comparisons, `floor`/`round`/`trunc` and absolute value, so
  `ℚ` is an exact carrier for them.  A NaN or infinite value is modelled as
  `Option.none`; `Number.isFinite v` becomes `v.isSome`.  Arithmetic on
  possibly-non-finite values propagates `none`, matching the fact that in
  JavaScript any arithmetic on NaN/±Inf never produces a finite number
  again in the expressions appearing here.
* The geometry evaluator `evaluateShadowMetricsAtT` (imported by
  `compute.ts` from `./functions`) is not present in the source tree; per
  the specification (§4.5) it supplies, at each time, the quantities
  `delta`, `L1obs`, `L2obs` together with the two derived metrics
  `penumbra = delta - L1obs` and `umbraAbs = delta - |L2obs|`.  The solver
  is therefore embedded parametrically over an arbitrary metrics function
  `m : ℚ → Metrics`, with the two derived metrics computed from it exactly
  as the specification prescribes.
* JavaScript `Date` values are embedded as integer milliseconds since the
  Unix epoch; `Date.UTC` is embedded through the standard civil-calendar
  day-count algorithm.
-/

namespace EclipseTimer

/-! ## Polynomial evaluator (`packages/engine/src/math/poly.ts`)

`evalPoly` evaluates `c0 + c1*t + c2*t^2 + ...` by Horner's rule, looping
from the highest coefficient down (`acc = acc*t + c_i`), which is exactly a
right fold. -/

def evalPoly (coeffs : List ℚ) (t : ℚ) : ℚ :=
  coeffs.foldr (fun c acc => acc * t + c) 0

/-! ## Numerical constants of the solver -/

/-- The `1e-12` slack used in all `t <= end + 1e-12` loop guards. -/
def eps12 : ℚ := 1 / 1000000000000

/-- Coarse bracketing step: 60 seconds (`1/60` hour). -/
def stepBracket : ℚ := 1 / 60

/-- Fine max-search step: 6 seconds (`1/600` hour). -/
def stepFine : ℚ := 1 / 600

/-- Bisection tolerance used for contacts: `1e-7` hours. -/
def tolContact : ℚ := 1 / 10000000

/-- Search window start (hours from t0). -/
def tMin : ℚ := -3

/-- Search window end (hours from t0). -/
def tMax : ℚ := 3

/-! ## Sign-change bracketing (`packages/engine/src/math/bracket.ts`) -/

/-- A bracket as produced by `findBrackets`: endpoints `a`, `b` and the
recorded values `fa`, `fb` of `f` there (possibly non-finite, hence
`Option`). -/
structure Bracket where
  a : ℚ
  b : ℚ
  fa : Option ℚ
  fb : Option ℚ
deriving DecidableEq

/-- One pass of the scan loop of `findBrackets`.  `prevT`/`prevF` are the
previous sample and its value; the loop samples `t = prevT + step` while
`t <= tEnd + 1e-12`.  When both consecutive values are finite it emits a
degenerate bracket of width `step` centred at an exactly-zero sample, or a
sign-change bracket `[prevT, t]` when `prevF * ft < 0`.  The fuel argument
only bounds the iteration count; `bracketFuel` below makes it large enough
that the guard, not the fuel, always terminates the loop. -/
def findBracketsAux (f : ℚ → Option ℚ) (tEnd step : ℚ) :
    ℕ → ℚ → Option ℚ → List Bracket
  | 0, _, _ => []
  | n + 1, prevT, prevF =>
    let t := prevT + step
    if t ≤ tEnd + eps12 then
      let ft := f t
      let here : List Bracket :=
        match prevF, ft with
        | some pf, some ftv =>
          if pf = 0 then
            [⟨prevT - step / 2, prevT + step / 2,
              f (prevT - step / 2), f (prevT + step / 2)⟩]
          else if pf * ftv < 0 then
            [⟨prevT, t, some pf, some ftv⟩]
          else []
        | _, _ => []
      here ++ findBracketsAux f tEnd step n t ft
    else []

/-- Enough fuel to cover every sample `tStart + k * step ≤ tEnd + 1e-12`. -/
def bracketFuel (tStart tEnd step : ℚ) : ℕ :=
  (((tEnd + eps12 - tStart) / step).floor + 1).toNat

/-- `findBrackets(f, tStart, tEnd, step)` of `bracket.ts`. -/
def findBrackets (f : ℚ → Option ℚ) (tStart tEnd step : ℚ) : List Bracket :=
  findBracketsAux f tEnd step (bracketFuel tStart tEnd step) tStart (f tStart)

/-! ## Bisection (`packages/engine/src/math/root.ts`) -/

/-- The `RootResult` record of `root.ts`. -/
structure RootResult where
  tHours : ℚ
  ok : Bool
  iterations : ℕ
deriving DecidableEq

/-- The state of one full bisection run: the returned result (`none` models
the JavaScript `null`), plus — as ghost instrumentation used only to state
properties — the list of visited midpoints and the final `lo`/`hi`
interval. -/
structure BisectState where
  result : Option RootResult
  mids : List ℚ
  lo : ℚ
  hi : ℚ
deriving DecidableEq

/-- The `for (let i = 0; i < maxIter; i++)` loop of `bisectRoot`, with the
remaining iteration count `n` as the recursion measure (so the loop index
is `maxIter - n`).  Mirrors the source: evaluate the midpoint; a non-finite
value aborts with `null`; reaching `|hi - lo| <= tol` or an exactly-zero
midpoint returns it with `ok = true`; otherwise keep the half whose left
value and midpoint value do not have the same strict sign
(`flo * fmid <= 0` keeps the left half). -/
def bisectIter (f : ℚ → Option ℚ) (tol : ℚ) (maxIter : ℕ) :
    ℕ → ℚ → ℚ → ℚ → ℚ → BisectState
  | 0, lo, hi, _, _ => ⟨some ⟨(lo + hi) / 2, false, maxIter⟩, [], lo, hi⟩
  | n + 1, lo, hi, flo, fhi =>
    let mid := (lo + hi) / 2
    match f mid with
    | none => ⟨none, [mid], lo, hi⟩
    | some fmid =>
      if |hi - lo| ≤ tol ∨ fmid = 0 then
        ⟨some ⟨mid, true, maxIter - n⟩, [mid], lo, hi⟩
      else if flo * fmid ≤ 0 then
        let s := bisectIter f tol maxIter n lo mid flo fmid
        ⟨s.result, mid :: s.mids, s.lo, s.hi⟩
      else
        let s := bisectIter f tol maxIter n mid hi fmid fhi
        ⟨s.result, mid :: s.mids, s.lo, s.hi⟩

/-- `bisectRoot` endpoint handling: non-finite endpoint values yield
`null`; an exactly-zero endpoint is returned immediately with
`iterations = 0`; strictly same-signed endpoints yield `null`; otherwise
the loop runs. -/
def bisectRootState (f : ℚ → Option ℚ) (a b tol : ℚ) (maxIter : ℕ) :
    BisectState :=
  match f a, f b with
  | some fa, some fb =>
    if fa = 0 then ⟨some ⟨a, true, 0⟩, [], a, b⟩
    else if fb = 0 then ⟨some ⟨b, true, 0⟩, [], a, b⟩
    else if fa * fb > 0 then ⟨none, [], a, b⟩
    else bisectIter f tol maxIter maxIter a b fa fb
  | _, _ => ⟨none, [], a, b⟩

/-- The default `maxIter = 100` of `root.ts`. -/
def defaultMaxIter : ℕ := 100

/-- `bisectRoot(f, a, b, tol, maxIter)` of `root.ts`: the result component
of the run. -/
def bisectRoot (f : ℚ → Option ℚ) (a b tol : ℚ) (maxIter : ℕ) :
    Option RootResult :=
  (bisectRootState f a b tol maxIter).result

/-! ## The scan-minimum loop (`scanMin` of `compute.ts`)

`scanMin(f, a, b, stepHours)` scans `t = a, a+step, ...` while
`t <= b + 1e-12`, keeping the first sample attaining the strictly smallest
finite value.  `bestV` starts at `+Infinity`, modelled as `none`: a finite
sample beats `none`, and otherwise must be strictly below the best so
far. -/
/-- The loop-body update of `scanMin`: with current sample value `ft` at
time `t` and best-so-far `(bestT, bestV)`, return the new best pair.  The
update fires exactly when `ft` is finite and either nothing finite has
been seen yet (`bestV = none`, i.e. `bestV = Infinity`) or `ft` is
strictly smaller. -/
def scanMinUpd (ft : Option ℚ) (t bestT : ℚ) (bestV : Option ℚ) :
    ℚ × Option ℚ :=
  match ft, bestV with
  | some v, none => (t, some v)
  | some v, some bv => if v < bv then (t, some v) else (bestT, bestV)
  | none, _ => (bestT, bestV)

def scanMinAux (f : ℚ → Option ℚ) (b step : ℚ) :
    ℕ → ℚ → ℚ → Option ℚ → ℚ × Option ℚ
  | 0, _, bestT, bestV => (bestT, bestV)
  | n + 1, t, bestT, bestV =>
    if t ≤ b + eps12 then
      let p := scanMinUpd (f t) t bestT bestV
      scanMinAux f b step n (t + step) p.1 p.2
    else (bestT, bestV)

/-- Enough fuel to cover every sample `a + k * step ≤ b + 1e-12`. -/
def scanFuel (a b step : ℚ) : ℕ :=
  (((b + eps12 - a) / step).floor + 2).toNat

/-- `scanMin(f, a, b, step)` of `compute.ts` (`bestT` starts at `a`). -/
def scanMin (f : ℚ → Option ℚ) (a b step : ℚ) : ℚ × Option ℚ :=
  scanMinAux f b step (scanFuel a b step) a a none

/-! ## Time module (`packages/engine/src/time/t0.ts`, `utc.ts`)

JavaScript `Date` values are integer milliseconds since the Unix epoch;
the `Date` constructor truncates a fractional time value toward zero, and
`Date.UTC` maps a civil date plus (possibly overflowing) time components to
that count using the proleptic Gregorian calendar. -/

/-- JavaScript truncation toward zero (`ToIntegerOrInfinity` of a finite
value, used by the `Date` constructor). -/
def jsTrunc (x : ℚ) : ℤ :=
  if 0 ≤ x then ⌊x⌋ else -⌊-x⌋

/-- JavaScript `Math.round`: `⌊x + 1/2⌋` (round half toward +∞). -/
def jsRound (x : ℚ) : ℤ :=
  ⌊x + 1 / 2⌋

/-- Days from 1970-01-01 to the proleptic-Gregorian civil date `y-m-d`
(the standard era-based day-count algorithm, which is what `Date.UTC`
implements for its date part). -/
def daysFromCivil (y m d : ℤ) : ℤ :=
  let y' := y - (if m ≤ 2 then 1 else 0)
  let era := Int.fdiv y' 400
  let yoe := y' - era * 400
  let mp := m + (if 2 < m then -3 else 9)
  let doy := Int.fdiv (153 * mp + 2) 5 + d - 1
  let doe := yoe * 365 + Int.fdiv yoe 4 - Int.fdiv yoe 100 + doy
  era * 146097 + doe - 719468

/-- `Date.UTC(y, m - 1, d, hh, mi, s, ms)` in milliseconds (the source
passes the 0-based month `M - 1` to `Date.UTC`; here `m` is the 1-based
month).  Out-of-range time components carry over exactly as in
JavaScript, since the sum is taken over the raw components. -/
def dateUtcMs (y m d hh mi s ms : ℤ) : ℤ :=
  daysFromCivil y m d * 86400000 + hh * 3600000 + mi * 60000 + s * 1000 + ms

/-- The time-relevant fields of an `EclipseRecord`: the `dateYmd` string
split into its year, month and day components, plus `t0TtHours` and
`deltaTSeconds`. -/
structure RecTime where
  dateY : ℤ
  dateM : ℤ
  dateD : ℤ
  t0TtHours : ℚ
  deltaTSeconds : ℚ
deriving DecidableEq

/-- `t0TtDate(e)` of `t0.ts`: split `t0TtHours` into hour / minute /
integer second / rounded millisecond components and feed them to
`Date.UTC` on the record's civil date. -/
def t0TtDateMs (tr : RecTime) : ℤ :=
  let totalSeconds := tr.t0TtHours * 3600
  let hh := ⌊totalSeconds / 3600⌋
  let mm := ⌊(totalSeconds - hh * 3600) / 60⌋
  let ss := totalSeconds - hh * 3600 - mm * 60
  let sInt := ⌊ss⌋
  let ms := jsRound ((ss - sInt) * 1000)
  dateUtcMs tr.dateY tr.dateM tr.dateD hh mm sInt ms

/-- `ttAtTHours(e, tHours)` of `t0.ts`: `t0 + tHours` hours, as a `Date`
(hence truncated to integer milliseconds). -/
def ttAtTHoursMs (tr : RecTime) (tHours : ℚ) : ℤ :=
  jsTrunc ((t0TtDateMs tr : ℚ) + tHours * 3600000)

/-- `ttToUtcUsingDeltaT(ttDate, e)` of `utc.ts`: subtract
`deltaTSeconds * 1000` milliseconds. -/
def ttToUtcUsingDeltaTMs (tr : RecTime) (ttMs : ℤ) : ℤ :=
  jsTrunc ((ttMs : ℚ) - tr.deltaTSeconds * 1000)

/-- The `toUtcIso` helper of `computeCircumstances`, with the final
ISO-8601 rendering left as the identity on the millisecond value (the
rendering is an injective formatting step).  `undefined` / non-finite
hour values yield `undefined`. -/
def toUtcMs (tr : RecTime) (tHours : Option ℚ) : Option ℤ :=
  tHours.map fun h => ttToUtcUsingDeltaTMs tr (ttAtTHoursMs tr h)

/-! ## The contact solver (`packages/engine/src/circumstances/compute.ts`)

`compute.ts` imports `evaluateShadowMetricsAtT` from
`./circumstances/functions`, a module whose source is not in the tree.

Modelled from the spec: the missing `evaluateShadowMetricsAtT` supplies,
per instant, the observer-plane quantities `delta`, `L1obs`, `L2obs`
(§4.5 steps 1–3, computed via `evalPoly` and `observerToFundamental` and
`Δ = hypot(x − ξ, y − η)`), and the solver reads from it exactly the two
derived metric values `penumbra = Δ − L1obs` and `umbraAbs = Δ − |L2obs|`
together with `delta`, `L1obs` and `L2obs`.  The solver is embedded
parametrically over the metrics function `m : ℚ → Metrics`; the fields of
`EvalAtT` that the solver never reads (`x`, `y`, `d`, `mu`, `l1`, `l2`,
`xi`, `eta`, `zeta`, `tHours`) are omitted. -/

/-- The per-instant quantities read by the solver (`none` = non-finite). -/
structure Metrics where
  delta : Option ℚ
  L1obs : Option ℚ
  L2obs : Option ℚ
deriving DecidableEq

/-- Modelled from the spec (§4.5): `f_pen = Δ − L1obs`.  Non-finite
operands give a non-finite result. -/
def Metrics.penumbra (v : Metrics) : Option ℚ :=
  match v.delta, v.L1obs with
  | some dl, some l1 => some (dl - l1)
  | _, _ => none

/-- Modelled from the spec (§4.5): `f_umb = Δ − |L2obs|`. -/
def Metrics.umbraAbs (v : Metrics) : Option ℚ :=
  match v.delta, v.L2obs with
  | some dl, some l2 => some (dl - |l2|)
  | _, _ => none

/-- Local eclipse classification (`EclipseKindAtLocation`). -/
inductive LocKind where
  | kNone
  | kPartial
  | kTotal
  | kAnnular
deriving DecidableEq

/-- The `ContactTimes` record of `compute.ts` (hours from t0, TT). -/
structure ContactTimes where
  c1 : Option ℚ
  c2 : Option ℚ
  max : Option ℚ
  c3 : Option ℚ
  c4 : Option ℚ
deriving DecidableEq

/-- The value returned by `solveContacts` (the `debug` payload is
omitted; `maxEval` is the evaluation at the selected maximum time). -/
structure SolveResult where
  contacts : ContactTimes
  kindAtLocation : LocKind
  maxEval : Option Metrics
deriving DecidableEq

/-- Root extraction shared by the penumbral and umbral passes: bisect
every bracket with tolerance `1e-7`, keep non-`null` results with
`ok = true` (their `tHours` is a rational, hence always finite), take the
times and sort ascending (`.sort((a, b) => a - b)`). -/
def rootsOf (f : ℚ → Option ℚ) (brs : List Bracket) : List ℚ :=
  (((brs.map fun br => bisectRoot f br.a br.b tolContact defaultMaxIter).filterMap
      id).filter (fun r => r.ok)).map (fun r => r.tHours)
    |>.insertionSort (· ≤ ·)

/-- The penumbral metric function fed to the bracketer. -/
def penF (m : ℚ → Metrics) : ℚ → Option ℚ := fun t => (m t).penumbra

/-- The umbral metric function fed to the bracketer. -/
def umbF (m : ℚ → Metrics) : ℚ → Option ℚ := fun t => (m t).umbraAbs

/-- Sorted penumbral roots over the `[-3, +3]` window, step 60 s. -/
def penRoots (m : ℚ → Metrics) : List ℚ :=
  rootsOf (penF m) (findBrackets (penF m) tMin tMax stepBracket)

/-- Sorted umbral roots over the `[-3, +3]` window, step 60 s. -/
def umbRoots (m : ℚ → Metrics) : List ℚ :=
  rootsOf (umbF m) (findBrackets (umbF m) tMin tMax stepBracket)

/-- `c1 = penRoots[0]` (undefined when there are no roots). -/
def c1Of (m : ℚ → Metrics) : Option ℚ := (penRoots m).head?

/-- `c4 = penRoots[last]`, only when at least two roots exist. -/
def c4Of (m : ℚ → Metrics) : Option ℚ :=
  if 2 ≤ (penRoots m).length then (penRoots m).getLast? else none

/-- `c2 = umbRoots[0]`. -/
def c2Of (m : ℚ → Metrics) : Option ℚ := (umbRoots m).head?

/-- `c3 = umbRoots[last]`, only when at least two roots exist. -/
def c3Of (m : ℚ → Metrics) : Option ℚ :=
  if 2 ≤ (umbRoots m).length then (umbRoots m).getLast? else none

/-- `visible = C1 and C4 both exist` (the `Number.isFinite` guards of the
source are vacuous here because every produced root is a rational). -/
def visibleOf (m : ℚ → Metrics) : Bool :=
  (c1Of m).isSome && (c4Of m).isSome

/-- Condition of the umbral max-selection branch:
`visible && typeof c2 === "number" && typeof c3 === "number" && c3 > c2`. -/
def cond1Of (m : ℚ → Metrics) : Bool :=
  visibleOf m &&
    match c2Of m, c3Of m with
    | some q2, some q3 => decide (q3 > q2)
    | _, _ => false

/-- Condition of the penumbral max-selection branch:
`visible && typeof c1 === "number" && typeof c4 === "number" && c4 > c1`. -/
def cond2Of (m : ℚ → Metrics) : Bool :=
  visibleOf m &&
    match c1Of m, c4Of m with
    | some q1, some q4 => decide (q4 > q1)
    | _, _ => false

/-- The classification `vAtMax.L2obs < 0 ? "total" : "annular"` of the
first selection branch (a NaN `L2obs` compares false and yields
`annular`). -/
def kindFromL2 (l2obs : Option ℚ) : LocKind :=
  match l2obs with
  | some l2 => if l2 < 0 then .kTotal else .kAnnular
  | none => .kAnnular

/-- `solveContacts` of `compute.ts`.  Notes kept from the source:
* the per-call `metricsCache` is a pure memoisation of `m` and is
  semantically the identity, so `metricsAt` is embedded as `m` itself;
* the provisional `kindAtLocation` computed before the max-time selection
  is dead code — every branch of the selection assigns the final kind —
  and is therefore not embedded;
* in the first two branches the `getD 0` defaults are never taken (the
  branch conditions guarantee the options are `some`); they only make the
  definition total;
* the fallback branch scans the whole window minimising `delta` with the
  coarse step, starting from `bestTFallback = 0` (not from `tMin`), which
  is why `scanMinAux` is seeded with best-so-far `0` there. -/
def solveContacts (m : ℚ → Metrics) : SolveResult :=
  if cond1Of m then
    let q2 := (c2Of m).getD 0
    let q3 := (c3Of m).getD 0
    let bestT := (scanMin (umbF m) q2 q3 stepFine).1
    let vAtMax := m bestT
    { contacts := ⟨c1Of m, c2Of m, some bestT, c3Of m, c4Of m⟩,
      kindAtLocation := kindFromL2 vAtMax.L2obs,
      maxEval := some vAtMax }
  else if cond2Of m then
    let q1 := (c1Of m).getD 0
    let q4 := (c4Of m).getD 0
    let bestT := (scanMin (penF m) q1 q4 stepFine).1
    { contacts := ⟨c1Of m, c2Of m, some bestT, c3Of m, c4Of m⟩,
      kindAtLocation := .kPartial,
      maxEval := some (m bestT) }
  else
    let bestT :=
      (scanMinAux (fun t => (m t).delta) tMax stepBracket
        (scanFuel tMin tMax stepBracket) tMin 0 none).1
    { contacts := ⟨c1Of m, c2Of m, some bestT, c3Of m, c4Of m⟩,
      kindAtLocation := if visibleOf m then .kPartial else .kNone,
      maxEval := some (m bestT) }

/-- The `Circumstances` output record (`eclipseId` and `_debug` omitted;
UTC instants as integer epoch milliseconds, see `toUtcMs`). -/
structure Circumstances where
  visible : Bool
  kindAtLocation : LocKind
  c1Utc : Option ℤ
  c2Utc : Option ℤ
  maxUtc : Option ℤ
  c3Utc : Option ℤ
  c4Utc : Option ℤ
  durationSeconds : Option ℚ
  magnitude : Option ℚ
deriving DecidableEq

/-- `computeCircumstances(e, o)` of `compute.ts`, parametric over the
metrics function.  In the magnitude computation, when the partial branch
is reached with a non-finite `delta` the source stores the NaN produced
by `clamp((L1obs − NaN)/L1obs)`; the embedding collapses that non-finite
value to an absent field, as everywhere else. -/
def computeCircumstances (tr : RecTime) (m : ℚ → Metrics) : Circumstances :=
  let s := solveContacts m
  let contacts := s.contacts
  let fallbackMaxT := contacts.max.getD 0
  let v := s.maxEval.getD (m fallbackMaxT)
  let visible := contacts.c1.isSome && contacts.c4.isSome
  let durationSeconds : Option ℚ :=
    match contacts.c2, contacts.c3 with
    | some q2, some q3 => if q3 > q2 then some ((q3 - q2) * 3600) else none
    | _, _ => none
  let magnitude : Option ℚ :=
    if visible = false then none
    else
      match v.L1obs with
      | none => none
      | some l1o =>
        if l1o ≤ 0 then none
        else if s.kindAtLocation = .kTotal ∨ s.kindAtLocation = .kAnnular then
          some 1
        else
          match v.delta with
          | some dl => some (max 0 (min 1 ((l1o - dl) / l1o)))
          | none => none
  { visible := visible,
    kindAtLocation := if visible then s.kindAtLocation else .kNone,
    c1Utc := toUtcMs tr contacts.c1,
    c2Utc := toUtcMs tr contacts.c2,
    maxUtc := toUtcMs tr contacts.max,
    c3Utc := toUtcMs tr contacts.c3,
    c4Utc := toUtcMs tr contacts.c4,
    durationSeconds := durationSeconds,
    magnitude := magnitude }

/-! ## Overlay vertex normalisation
(`packages/catalog/scripts/build_overlays_json.ts`)

Every vertex of every emitted overlay polygon (both the visible penumbra
envelope and the central band) is produced as
`[clamp(lat, -89.9, 89.9), normLon(lon)]`: the two return statements of
`findEdgeAlongBearing` and the return of `sphericalInterp` construct all
points that reach the output (the band/envelope assembly and
Douglas-Peucker simplification only select among already-constructed
points).  `destPoint` pre-wraps via the same `((x % 360) + 540) % 360 -
180` expression before `normLon` is applied again. -/

/-- The JavaScript remainder operator `%` (sign of the dividend). -/
def jsMod (a n : ℚ) : ℚ :=
  a - n * (jsTrunc (a / n) : ℚ)

/-- `clamp(v, lo, hi) = Math.max(lo, Math.min(hi, v))`. -/
def clampQ (v lo hi : ℚ) : ℚ :=
  max lo (min hi v)

/-- `normLon(lon) = ((lon % 360) + 540) % 360 - 180`. -/
def normLon (lon : ℚ) : ℚ :=
  jsMod (jsMod lon 360 + 540) 360 - 180

/-- The vertex constructor through which every overlay polygon vertex is
emitted: latitude clamped to `[-89.9, 89.9]`, longitude normalised. -/
def overlayVertex (lat lon : ℚ) : ℚ × ℚ :=
  (clampQ lat (-899 / 10) (899 / 10), normLon lon)

/-! ## Fundamental-plane projector (`packages/engine/src/geo/coords.ts`)

The projector uses transcendental functions, so it is embedded over `ℝ`
with `Real.sin` / `Real.cos` / `Real.sqrt`. -/

/-- `Math.PI / 180`. -/
noncomputable def deg2rad : ℝ := Real.pi / 180

/-- WGS84 flattening `f = 1 / 298.257223563`. -/
noncomputable def wgsFlat : ℝ := 1 / 298.257223563

/-- WGS84 eccentricity squared `e2 = f * (2 - f)`. -/
noncomputable def wgsE2 : ℝ := wgsFlat * (2 - wgsFlat)

/-- The `ObserverFundamental` output record of `coords.ts`. -/
structure ObserverFundamental where
  xi : ℝ
  eta : ℝ
  zeta : ℝ

/-- `observerToFundamental(latDeg, lonDeg, dDeg, muDeg, elevM)` of
`coords.ts`, line by line. -/
noncomputable def observerToFundamental
    (latDeg lonDeg dDeg muDeg elevM : ℝ) : ObserverFundamental :=
  let lat := latDeg * deg2rad
  let lon := lonDeg * deg2rad
  let d := dDeg * deg2rad
  let mu := muDeg * deg2rad
  let H := mu + lon
  let sinLat := Real.sin lat
  let cosLat := Real.cos lat
  let h := elevM / 6378137.0
  let N := 1 / Real.sqrt (1 - wgsE2 * sinLat * sinLat)
  let rhoCosPhiPrime := (N + h) * cosLat
  let rhoSinPhiPrime := (N * (1 - wgsE2) + h) * sinLat
  let sinD := Real.sin d
  let cosD := Real.cos d
  let sinH := Real.sin H
  let cosH := Real.cos H
  { xi := rhoCosPhiPrime * sinH,
    eta := rhoSinPhiPrime * cosD - rhoCosPhiPrime * cosH * sinD,
    zeta := rhoSinPhiPrime * sinD + rhoCosPhiPrime * cosH * cosD }

/-! ## Concrete metrics functions used in the claim instances

For a record whose `d`, `mu` and `y` polynomials are identically zero,
observed from `latDeg = 0`, `lonDeg = 0`, `elevM = 0`, the projector
collapses exactly (`observerToFundamental_zero` below): `(ξ, η, ζ) =
(0, 0, 1)` for every `t`.  Then per §4.5,
`Δ(t) = hypot(x(t) − 0, 0 − 0) = |x(t)|`,
`L1obs(t) = l1(t) − 1 · tanF1`, `L2obs(t) = l2(t) − 1 · tanF2`, all exact
rationals whenever the coefficients are rational.  `collapsedMetrics`
is `evaluateShadowMetricsAtT` specialised to such a record/observer. -/

/-- Metrics of a collapsed record (see section comment): coefficients of
`x`, `l1`, `l2`, plus `tanF1`, `tanF2`; `y = d = mu = 0`, observer at
`(0, 0, 0)`. -/
def collapsedMetrics (cx cl1 cl2 : List ℚ) (tf1 tf2 : ℚ) : ℚ → Metrics :=
  fun t =>
    { delta := some |evalPoly cx t|,
      L1obs := some (evalPoly cl1 t - tf1),
      L2obs := some (evalPoly cl2 t - tf2) }

/-- Metrics constant in time (a collapsed record with constant
polynomials). -/
def constMetrics (dl l1o l2o : ℚ) : ℚ → Metrics :=
  fun _ => { delta := some dl, L1obs := some l1o, L2obs := some l2o }

/-- Metrics of a record whose six coefficient arrays are all NaN: every
polynomial value, hence `Δ`, `L1obs`, `L2obs`, is NaN at every time. -/
def nanMetrics : ℚ → Metrics :=
  fun _ => { delta := none, L1obs := none, L2obs := none }

/-- A concrete time record for instances: date 2027-08-02,
`t0TtHours = 10`, `deltaTSeconds = 0`. -/
def trEx : RecTime :=
  { dateY := 2027, dateM := 8, dateD := 2, t0TtHours := 10,
    deltaTSeconds := 0 }

/-! ## Helper lemmas -/

theorem sorted_head?_le_getLast? {l : List ℚ} (hs : l.Sorted (· ≤ ·))
    {x y : ℚ} (hx : l.head? = some x) (hy : l.getLast? = some y) : x ≤ y := by
  obtain ⟨ys, rfl⟩ := List.head?_eq_some_iff.1 hx
  have hmem := List.mem_of_getLast?_eq_some hy
  rcases List.mem_cons.1 hmem with h | h
  · exact le_of_eq h.symm
  · exact (List.sorted_cons.1 hs).1 y h

theorem penRoots_sorted (m : ℚ → Metrics) : (penRoots m).Sorted (· ≤ ·) :=
  List.sorted_insertionSort _ _

theorem umbRoots_sorted (m : ℚ → Metrics) : (umbRoots m).Sorted (· ≤ ·) :=
  List.sorted_insertionSort _ _

/-- Every bracket emitted by the scan has width exactly `step` and comes
either from a strict sign change (finite recorded values, negative
product, values of `f` at the endpoints) or from an exactly-zero sample
(degenerate bracket centred at the sample, endpoint values re-evaluated
and possibly non-finite). -/
theorem findBracketsAux_spec (f : ℚ → Option ℚ) (tEnd step : ℚ) :
    ∀ (n : ℕ) (prevT : ℚ) (br : Bracket),
      br ∈ findBracketsAux f tEnd step n prevT (f prevT) →
      br.b - br.a = step ∧
      ((∃ pf ftv, br.fa = some pf ∧ br.fb = some ftv ∧ pf * ftv < 0 ∧
          f br.a = some pf ∧ f br.b = some ftv) ∨
        (∃ s0, f s0 = some 0 ∧ br.a = s0 - step / 2 ∧ br.b = s0 + step / 2 ∧
          br.fa = f br.a ∧ br.fb = f br.b)) := by
  intro n
  induction n with
  | zero =>
    intro prevT br h
    simp [findBracketsAux] at h
  | succ n ih =>
    intro prevT br h
    simp only [findBracketsAux] at h
    by_cases hg : prevT + step ≤ tEnd + eps12
    · rw [if_pos hg] at h
      rcases List.mem_append.1 h with hh | hh
      · split at hh
        · rename_i pf ftv hpf hft
          split_ifs at hh with h0 hneg
          · rcases List.mem_singleton.1 hh with rfl
            refine ⟨by ring, Or.inr ⟨prevT, ?_, rfl, rfl, rfl, rfl⟩⟩
            rw [hpf, h0]
          · rcases List.mem_singleton.1 hh with rfl
            exact ⟨by ring, Or.inl ⟨pf, ftv, rfl, rfl, hneg, hpf, hft⟩⟩
          · exact absurd hh (List.not_mem_nil br)
        · exact absurd hh (List.not_mem_nil br)
      · exact ih (prevT + step) br hh
    · rw [if_neg hg] at h; simp at h

theorem findBrackets_spec (f : ℚ → Option ℚ) (tStart tEnd step : ℚ)
    (br : Bracket) (h : br ∈ findBrackets f tStart tEnd step) :
    br.b - br.a = step ∧
    ((∃ pf ftv, br.fa = some pf ∧ br.fb = some ftv ∧ pf * ftv < 0 ∧
        f br.a = some pf ∧ f br.b = some ftv) ∨
      (∃ s0, f s0 = some 0 ∧ br.a = s0 - step / 2 ∧ br.b = s0 + step / 2 ∧
        br.fa = f br.a ∧ br.fb = f br.b)) :=
  findBracketsAux_spec f tEnd step _ tStart br h

/-- If `f` is non-finite everywhere, the scan never emits a bracket. -/
theorem findBracketsAux_none (f : ℚ → Option ℚ) (tEnd step : ℚ)
    (hf : ∀ t, f t = none) :
    ∀ (n : ℕ) (prevT : ℚ), findBracketsAux f tEnd step n prevT none = [] := by
  intro n
  induction n with
  | zero => intro prevT; rfl
  | succ n ih =>
    intro prevT
    simp only [findBracketsAux]
    by_cases hg : prevT + step ≤ tEnd + eps12
    · rw [if_pos hg, hf (prevT + step)]
      simpa using ih (prevT + step)
    · rw [if_neg hg]

theorem findBrackets_none (f : ℚ → Option ℚ) (tStart tEnd step : ℚ)
    (hf : ∀ t, f t = none) : findBrackets f tStart tEnd step = [] := by
  rw [findBrackets, hf tStart]
  exact findBracketsAux_none f tEnd step hf _ tStart

/-- If `f` is the finite constant `c ≠ 0`, the scan never emits a
bracket: no sample is zero and no product of samples is negative. -/
theorem findBracketsAux_const (f : ℚ → Option ℚ) (tEnd step : ℚ) (c : ℚ)
    (hf : ∀ t, f t = some c) (hc : c ≠ 0) :
    ∀ (n : ℕ) (prevT : ℚ),
      findBracketsAux f tEnd step n prevT (some c) = [] := by
  intro n
  induction n with
  | zero => intro prevT; rfl
  | succ n ih =>
    intro prevT
    simp only [findBracketsAux]
    by_cases hg : prevT + step ≤ tEnd + eps12
    · rw [if_pos hg, hf (prevT + step)]
      have hcc : ¬c * c < 0 := by
        exact not_lt.2 (mul_self_nonneg c)
      simp only [if_neg hc, if_neg hcc]
      simpa using ih (prevT + step)
    · rw [if_neg hg]

theorem findBrackets_const (f : ℚ → Option ℚ) (tStart tEnd step : ℚ) (c : ℚ)
    (hf : ∀ t, f t = some c) (hc : c ≠ 0) :
    findBrackets f tStart tEnd step = [] := by
  rw [findBrackets, hf tStart]
  exact findBracketsAux_const f tEnd step c hf hc _ tStart

/-- The updated best time is the old one or the current sample. -/
theorem scanMinUpd_fst (ft : Option ℚ) (t bT : ℚ) (bV : Option ℚ) :
    (scanMinUpd ft t bT bV).1 = bT ∨ (scanMinUpd ft t bT bV).1 = t := by
  rcases ft with _ | v
  · left; rfl
  · rcases bV with _ | bv
    · right; rfl
    · by_cases hlt : v < bv
      · right; simp [scanMinUpd, if_pos hlt]
      · left; simp [scanMinUpd, if_neg hlt]

theorem scanMinAux_fst (f : ℚ → Option ℚ) (b step : ℚ) (hstep : 0 < step) :
    ∀ (n : ℕ) (t bT : ℚ) (bV : Option ℚ),
      (scanMinAux f b step n t bT bV).1 = bT ∨
      (t ≤ (scanMinAux f b step n t bT bV).1 ∧
        (scanMinAux f b step n t bT bV).1 ≤ b + eps12) := by
  intro n
  induction n with
  | zero => intro t bT bV; left; rfl
  | succ n ih =>
    intro t bT bV
    rw [scanMinAux]
    by_cases hg : t ≤ b + eps12
    · rw [if_pos hg]
      have hstep' : t ≤ t + step := by linarith
      show (scanMinAux f b step n (t + step) (scanMinUpd (f t) t bT bV).1
          (scanMinUpd (f t) t bT bV).2).1 = bT ∨ _
      rcases ih (t + step) (scanMinUpd (f t) t bT bV).1
          (scanMinUpd (f t) t bT bV).2 with h | ⟨h1, h2⟩
      · rcases scanMinUpd_fst (f t) t bT bV with hu | hu
        · left; rw [h, hu]
        · right; rw [h, hu]; exact ⟨le_refl t, hg⟩
      · right; exact ⟨le_trans hstep' h1, h2⟩
    · rw [if_neg hg]; left; rfl

theorem scanMin_bounds (f : ℚ → Option ℚ) (a b step : ℚ) (hstep : 0 < step)
    (hab : a ≤ b) :
    a ≤ (scanMin f a b step).1 ∧ (scanMin f a b step).1 ≤ b + eps12 := by
  have heps : (0 : ℚ) ≤ eps12 := by norm_num [eps12]
  rcases scanMinAux_fst f b step hstep (scanFuel a b step) a a none with h | h
  · rw [scanMin, h]
    exact ⟨le_refl a, by linarith⟩
  · exact ⟨h.1, h.2⟩

/-- A non-finite visited midpoint makes the whole loop return `null`. -/
theorem bisectIter_mids_none (f : ℚ → Option ℚ) (tol : ℚ) (maxIter : ℕ) :
    ∀ (n : ℕ) (lo hi flo fhi : ℚ),
      (∃ mq ∈ (bisectIter f tol maxIter n lo hi flo fhi).mids, f mq = none) →
      (bisectIter f tol maxIter n lo hi flo fhi).result = none := by
  intro n
  induction n with
  | zero =>
    intro lo hi flo fhi h
    rcases h with ⟨mq, hmem, _⟩
    simp [bisectIter] at hmem
  | succ n ih =>
    intro lo hi flo fhi h
    rcases hf : f ((lo + hi) / 2) with _ | fmid
    · simp only [bisectIter, hf]
    · rcases h with ⟨mq, hmem, hmq⟩
      simp only [bisectIter, hf] at hmem ⊢
      by_cases hstop : |hi - lo| ≤ tol ∨ fmid = 0
      · rw [if_pos hstop] at hmem
        rcases List.mem_singleton.1 hmem with rfl
        exact absurd hmq (by rw [hf]; exact Option.some_ne_none fmid)
      · rw [if_neg hstop] at hmem ⊢
        by_cases hside : flo * fmid ≤ 0
        · rw [if_pos hside] at hmem ⊢
          rcases List.mem_cons.1 hmem with rfl | hmem'
          · exact absurd hmq (by rw [hf]; exact Option.some_ne_none fmid)
          · exact ih lo ((lo + hi) / 2) flo fmid ⟨mq, hmem', hmq⟩
        · rw [if_neg hside] at hmem ⊢
          rcases List.mem_cons.1 hmem with rfl | hmem'
          · exact absurd hmq (by rw [hf]; exact Option.some_ne_none fmid)
          · exact ih ((lo + hi) / 2) hi fmid fhi ⟨mq, hmem', hmq⟩

/-- When the loop ends with `ok = false`, the returned time is the
midpoint of the final interval and the iteration count is `maxIter`. -/
theorem bisectIter_notOk (f : ℚ → Option ℚ) (tol : ℚ) (maxIter : ℕ) :
    ∀ (n : ℕ) (lo hi flo fhi : ℚ) (r : RootResult),
      (bisectIter f tol maxIter n lo hi flo fhi).result = some r →
      r.ok = false →
      r.tHours = ((bisectIter f tol maxIter n lo hi flo fhi).lo +
          (bisectIter f tol maxIter n lo hi flo fhi).hi) / 2 ∧
        r.iterations = maxIter := by
  intro n
  induction n with
  | zero =>
    intro lo hi flo fhi r hr _
    rcases Option.some_inj.1 hr.symm with rfl
    exact ⟨rfl, rfl⟩
  | succ n ih =>
    intro lo hi flo fhi r hr hok
    rcases hf : f ((lo + hi) / 2) with _ | fmid
    · rw [bisectIter] at hr
      simp only [hf] at hr
      simp at hr
    · simp only [bisectIter, hf] at hr ⊢
      by_cases hstop : |hi - lo| ≤ tol ∨ fmid = 0
      · rw [if_pos hstop] at hr
        rcases Option.some_inj.1 hr.symm with rfl
        simp at hok
      · rw [if_neg hstop] at hr ⊢
        by_cases hside : flo * fmid ≤ 0
        · rw [if_pos hside] at hr ⊢
          exact ih lo ((lo + hi) / 2) flo fmid r hr hok
        · rw [if_neg hside] at hr ⊢
          exact ih ((lo + hi) / 2) hi fmid fhi r hr hok

/-! ### Characterisation lemmas for the solver -/

theorem solveContacts_c1 (m : ℚ → Metrics) :
    (solveContacts m).contacts.c1 = c1Of m := by
  rw [solveContacts]; split_ifs <;> rfl

theorem solveContacts_c2 (m : ℚ → Metrics) :
    (solveContacts m).contacts.c2 = c2Of m := by
  rw [solveContacts]; split_ifs <;> rfl

theorem solveContacts_c3 (m : ℚ → Metrics) :
    (solveContacts m).contacts.c3 = c3Of m := by
  rw [solveContacts]; split_ifs <;> rfl

theorem solveContacts_c4 (m : ℚ → Metrics) :
    (solveContacts m).contacts.c4 = c4Of m := by
  rw [solveContacts]; split_ifs <;> rfl

/-- Every branch of the max-time selection records a maximum time and the
evaluation of the metrics at it. -/
theorem solveContacts_max (m : ℚ → Metrics) :
    ∃ bt, (solveContacts m).contacts.max = some bt ∧
      (solveContacts m).maxEval = some (m bt) := by
  rw [solveContacts]; split_ifs <;> exact ⟨_, rfl, rfl⟩

/-- A central classification can only come from the first selection
branch. -/
theorem solveContacts_central (m : ℚ → Metrics)
    (h : (solveContacts m).kindAtLocation = LocKind.kTotal ∨
      (solveContacts m).kindAtLocation = LocKind.kAnnular) :
    cond1Of m = true := by
  by_contra hc
  rw [solveContacts] at h
  rw [if_neg hc] at h
  by_cases hc2 : cond2Of m = true
  · rw [if_pos hc2] at h
    rcases h with h | h <;> exact absurd h (by simp)
  · rw [if_neg hc2] at h
    by_cases hv : visibleOf m = true
    · simp only [hv, if_true] at h
      rcases h with h | h <;> exact absurd h (by simp)
    · simp only [Bool.not_eq_true] at hv
      simp only [hv, Bool.false_eq_true, if_false] at h
      rcases h with h | h <;> exact absurd h (by simp)

/-- A `kPartial` classification implies visibility (and conversely a
non-visible run is always classified `kNone`). -/
theorem solveContacts_partial_visible (m : ℚ → Metrics)
    (h : (solveContacts m).kindAtLocation = LocKind.kPartial) :
    visibleOf m = true := by
  by_contra hv
  simp only [Bool.not_eq_true] at hv
  have h1 : cond1Of m = false := by
    rw [cond1Of, hv, Bool.false_and]
  have h2 : cond2Of m = false := by
    rw [cond2Of, hv, Bool.false_and]
  rw [solveContacts, h1] at h
  simp only [Bool.false_eq_true, if_false, h2, hv] at h
  exact absurd h (by simp)

/-- With `visible = false` the solver classifies `kNone`. -/
theorem solveContacts_notVisible (m : ℚ → Metrics)
    (hv : visibleOf m = false) :
    (solveContacts m).kindAtLocation = LocKind.kNone := by
  have h1 : cond1Of m = false := by
    rw [cond1Of, hv, Bool.false_and]
  have h2 : cond2Of m = false := by
    rw [cond2Of, hv, Bool.false_and]
  rw [solveContacts, h1]
  simp only [Bool.false_eq_true, if_false, h2, hv]

/-- The first-branch classification is never `kNone`. -/
theorem kindFromL2_ne_none (o : Option ℚ) : kindFromL2 o ≠ LocKind.kNone := by
  rcases o with _ | l2
  · simp [kindFromL2]
  · by_cases hl : l2 < 0 <;> simp [kindFromL2, hl]

/-- The first-branch classification is central. -/
theorem kindFromL2_central (o : Option ℚ) :
    kindFromL2 o = LocKind.kTotal ∨ kindFromL2 o = LocKind.kAnnular := by
  rcases o with _ | l2
  · right; rfl
  · by_cases hl : l2 < 0
    · left; simp [kindFromL2, hl]
    · right; simp [kindFromL2, hl]

/-- With `visible = true` the solver never classifies `kNone`. -/
theorem solveContacts_visible_kind (m : ℚ → Metrics)
    (hv : visibleOf m = true) :
    (solveContacts m).kindAtLocation ≠ LocKind.kNone := by
  rw [solveContacts]
  split_ifs with h1 h2
  · exact kindFromL2_ne_none _
  · simp
  · simp [hv]

/-- Unfolding `cond1Of m = true`. -/
theorem cond1_elim (m : ℚ → Metrics) (h : cond1Of m = true) :
    visibleOf m = true ∧
      ∃ q2 q3, c2Of m = some q2 ∧ c3Of m = some q3 ∧ q2 < q3 := by
  rw [cond1Of, Bool.and_eq_true] at h
  refine ⟨h.1, ?_⟩
  rcases hc2 : c2Of m with _ | q2
  · rw [hc2] at h; exact absurd h.2 (by simp)
  · rcases hc3 : c3Of m with _ | q3
    · rw [hc2, hc3] at h; exact absurd h.2 (by simp)
    · rw [hc2, hc3] at h
      exact ⟨q2, q3, rfl, rfl, of_decide_eq_true h.2⟩

/-- Unfolding `visibleOf m = true`, with the head-is-below-last fact from
sortedness of the root list. -/
theorem visible_elim (m : ℚ → Metrics) (h : visibleOf m = true) :
    ∃ q1 q4, c1Of m = some q1 ∧ c4Of m = some q4 ∧ q1 ≤ q4 := by
  rw [visibleOf, Bool.and_eq_true, Option.isSome_iff_exists,
    Option.isSome_iff_exists] at h
  rcases h with ⟨⟨q1, h1⟩, ⟨q4, h4⟩⟩
  refine ⟨q1, q4, h1, h4, ?_⟩
  have hlast : (penRoots m).getLast? = some q4 := by
    rw [c4Of] at h4
    by_cases hlen : 2 ≤ (penRoots m).length
    · rwa [if_pos hlen] at h4
    · rw [if_neg hlen] at h4; exact absurd h4 (by simp)
  exact sorted_head?_le_getLast? (penRoots_sorted m) h1 hlast

/-! ### Characterisation lemmas for `computeCircumstances` -/

theorem computeCircumstances_visible (tr : RecTime) (m : ℚ → Metrics) :
    (computeCircumstances tr m).visible = visibleOf m := by
  simp only [computeCircumstances]
  rw [solveContacts_c1, solveContacts_c4, visibleOf]

theorem computeCircumstances_kind (tr : RecTime) (m : ℚ → Metrics) :
    (computeCircumstances tr m).kindAtLocation =
      (if visibleOf m then (solveContacts m).kindAtLocation
        else LocKind.kNone) := by
  simp only [computeCircumstances]
  rw [solveContacts_c1, solveContacts_c4]
  rfl

theorem computeCircumstances_c1Utc (tr : RecTime) (m : ℚ → Metrics) :
    (computeCircumstances tr m).c1Utc = toUtcMs tr (c1Of m) := by
  simp only [computeCircumstances]
  rw [solveContacts_c1]

theorem computeCircumstances_c2Utc (tr : RecTime) (m : ℚ → Metrics) :
    (computeCircumstances tr m).c2Utc = toUtcMs tr (c2Of m) := by
  simp only [computeCircumstances]
  rw [solveContacts_c2]

theorem computeCircumstances_c3Utc (tr : RecTime) (m : ℚ → Metrics) :
    (computeCircumstances tr m).c3Utc = toUtcMs tr (c3Of m) := by
  simp only [computeCircumstances]
  rw [solveContacts_c3]

theorem computeCircumstances_c4Utc (tr : RecTime) (m : ℚ → Metrics) :
    (computeCircumstances tr m).c4Utc = toUtcMs tr (c4Of m) := by
  simp only [computeCircumstances]
  rw [solveContacts_c4]

theorem computeCircumstances_maxUtc (tr : RecTime) (m : ℚ → Metrics) :
    (computeCircumstances tr m).maxUtc =
      toUtcMs tr (solveContacts m).contacts.max := by
  simp only [computeCircumstances]

theorem computeCircumstances_duration (tr : RecTime) (m : ℚ → Metrics) :
    (computeCircumstances tr m).durationSeconds =
      (match c2Of m, c3Of m with
        | some q2, some q3 =>
          if q3 > q2 then some ((q3 - q2) * 3600) else none
        | _, _ => none) := by
  simp only [computeCircumstances]
  rw [solveContacts_c2, solveContacts_c3]

theorem toUtcMs_isSome (tr : RecTime) (o : Option ℚ) :
    (toUtcMs tr o).isSome = o.isSome := by
  rcases o with _ | q <;> rfl

/-- The evaluation `v` used by `computeCircumstances` for magnitude:
`maxEval` if present, else the metrics at the fallback max time. -/
def maxEvalOf (m : ℚ → Metrics) : Metrics :=
  ((solveContacts m).maxEval).getD (m (((solveContacts m).contacts.max).getD 0))

theorem maxEvalOf_eq (m : ℚ → Metrics) :
    ∃ bt, (solveContacts m).contacts.max = some bt ∧ maxEvalOf m = m bt := by
  obtain ⟨bt, hbt, hev⟩ := solveContacts_max m
  exact ⟨bt, hbt, by rw [maxEvalOf, hev]; rfl⟩

theorem computeCircumstances_magnitude (tr : RecTime) (m : ℚ → Metrics) :
    (computeCircumstances tr m).magnitude =
      (if visibleOf m = false then none
        else
          match (maxEvalOf m).L1obs with
          | none => none
          | some l1o =>
            if l1o ≤ 0 then none
            else if (solveContacts m).kindAtLocation = LocKind.kTotal ∨
                (solveContacts m).kindAtLocation = LocKind.kAnnular then
              some 1
            else
              match (maxEvalOf m).delta with
              | some dl => some (max 0 (min 1 ((l1o - dl) / l1o)))
              | none => none) := by
  simp only [computeCircumstances, maxEvalOf]
  rw [solveContacts_c1, solveContacts_c4]
  rfl

/-- If the `delta` component is non-finite at every time, the penumbral
metric never brackets, so the run is not visible. -/
theorem visibleOf_delta_none (m : ℚ → Metrics)
    (h : ∀ t, (m t).delta = none) : visibleOf m = false := by
  have hpen : ∀ t, penF m t = none := by
    intro t
    simp [penF, Metrics.penumbra, h t]
  have hbr := findBrackets_none (penF m) tMin tMax stepBracket hpen
  rw [visibleOf, c1Of, penRoots, hbr]
  rfl

/-! ## The claims -/

/-- **C4** (corrected).  Every bracket returned by `findBrackets` over a
step `h > 0` has width exactly `h` (hence `≤ h`), and is either a strict
sign-change bracket — recorded endpoint values finite, equal to `f` at
the endpoints, with product `< 0 ≤ 0` — or a degenerate bracket of width
`h` centred at an exactly-zero sample, whose re-evaluated endpoint values
may be non-finite and may have positive product.  The claim's assertion
that `f(aᵢ)·f(bᵢ) ≤ 0` (finiteness included) extends to the degenerate
brackets is refuted by `claimC4_counterexample`. -/
theorem claimC4_amended (f : ℚ → Option ℚ) (tStart tEnd h : ℚ)
    (hstep : 0 < h) (br : Bracket) (hbr : br ∈ findBrackets f tStart tEnd h) :
    br.b - br.a ≤ h ∧
    ((∃ pf ftv, br.fa = some pf ∧ br.fb = some ftv ∧ pf * ftv ≤ 0 ∧
        f br.a = some pf ∧ f br.b = some ftv) ∨
      (∃ s0, f s0 = some 0 ∧ br.a = s0 - h / 2 ∧ br.b = s0 + h / 2 ∧
        br.fa = f br.a ∧ br.fb = f br.b)) := by
  obtain ⟨hw, hcases⟩ := findBrackets_spec f tStart tEnd h br hbr
  refine ⟨le_of_eq hw, ?_⟩
  rcases hcases with ⟨pf, ftv, h1, h2, h3, h4, h5⟩ | hdeg
  · exact Or.inl ⟨pf, ftv, h1, h2, le_of_lt h3, h4, h5⟩
  · exact Or.inr hdeg

/-- **C4**, counterexample to the claim as stated: for `f(t) = t²` on
`[-1, 1]` with step `1`, the sample at `t = 0` is exactly zero and the
emitted degenerate bracket records `f(-1/2) = f(1/2) = 1/4`, whose
product is positive — the claimed `f(aᵢ)·f(bᵢ) ≤ 0` fails. -/
theorem claimC4_counterexample :
    findBrackets (fun t => some (t * t)) (-1) 1 1 =
      [⟨-(1 / 2 : ℚ), 1 / 2, some (1 / 4), some (1 / 4)⟩] ∧
    ¬((1 / 4 : ℚ) * (1 / 4) ≤ 0) := by
  constructor
  · with_unfolding_all decide
  · norm_num

/-- Witness for `claimC4_amended` at `f(t) = t` on `[0, 1]`, step `1`:
the sample at `t = 0` is exactly zero, giving the degenerate bracket
`[-1/2, 1/2]`. -/
theorem claimC4_witness :
    (0 : ℚ) < 1 ∧
    (⟨-(1 / 2 : ℚ), 1 / 2, some (-(1 / 2) : ℚ), some (1 / 2 : ℚ)⟩ : Bracket) ∈
      findBrackets (fun t => some t) 0 1 1 ∧
    ((⟨-(1 / 2 : ℚ), 1 / 2, some (-(1 / 2) : ℚ), some (1 / 2 : ℚ)⟩ : Bracket).b -
        (⟨-(1 / 2 : ℚ), 1 / 2, some (-(1 / 2) : ℚ), some (1 / 2 : ℚ)⟩ : Bracket).a ≤ 1 ∧
      ((∃ pf ftv,
          (⟨-(1 / 2 : ℚ), 1 / 2, some (-(1 / 2) : ℚ), some (1 / 2 : ℚ)⟩ : Bracket).fa = some pf ∧
          (⟨-(1 / 2 : ℚ), 1 / 2, some (-(1 / 2) : ℚ), some (1 / 2 : ℚ)⟩ : Bracket).fb = some ftv ∧
          pf * ftv ≤ 0 ∧
          (fun t => some t) (⟨-(1 / 2 : ℚ), 1 / 2, some (-(1 / 2) : ℚ), some (1 / 2 : ℚ)⟩ : Bracket).a = some pf ∧
          (fun t => some t) (⟨-(1 / 2 : ℚ), 1 / 2, some (-(1 / 2) : ℚ), some (1 / 2 : ℚ)⟩ : Bracket).b = some ftv) ∨
        (∃ s0, (fun t => some t) s0 = some (0 : ℚ) ∧
          (⟨-(1 / 2 : ℚ), 1 / 2, some (-(1 / 2) : ℚ), some (1 / 2 : ℚ)⟩ : Bracket).a = s0 - 1 / 2 ∧
          (⟨-(1 / 2 : ℚ), 1 / 2, some (-(1 / 2) : ℚ), some (1 / 2 : ℚ)⟩ : Bracket).b = s0 + 1 / 2 ∧
          (⟨-(1 / 2 : ℚ), 1 / 2, some (-(1 / 2) : ℚ), some (1 / 2 : ℚ)⟩ : Bracket).fa =
            (fun t => some t) (⟨-(1 / 2 : ℚ), 1 / 2, some (-(1 / 2) : ℚ), some (1 / 2 : ℚ)⟩ : Bracket).a ∧
          (⟨-(1 / 2 : ℚ), 1 / 2, some (-(1 / 2) : ℚ), some (1 / 2 : ℚ)⟩ : Bracket).fb =
            (fun t => some t) (⟨-(1 / 2 : ℚ), 1 / 2, some (-(1 / 2) : ℚ), some (1 / 2 : ℚ)⟩ : Bracket).b))) :=
  ⟨by norm_num,
   by with_unfolding_all decide,
   claimC4_amended (fun t => some t) 0 1 1 (by norm_num) _
     (by with_unfolding_all decide)⟩

/-- **C5** (confirmed).  `bisectRoot` behaviour: a finite exactly-zero
endpoint is returned immediately (`ok = true`, `iterations = 0`, with
`f(a) = 0` taking precedence); a non-finite endpoint value yields `null`;
strictly same-signed finite endpoints (`fa · fb > 0`) yield `null`; a
non-finite visited midpoint yields `null`; and when the loop exhausts its
`N` iterations without meeting the tolerance it returns the midpoint of
the final interval with `ok = false` and `iterations = N`. -/
theorem claimC5 (f : ℚ → Option ℚ) (a b tol : ℚ) (N : ℕ) :
    (∀ va vb, f a = some va → f b = some vb →
      ((va = 0 → bisectRoot f a b tol N = some ⟨a, true, 0⟩) ∧
        (va ≠ 0 → vb = 0 → bisectRoot f a b tol N = some ⟨b, true, 0⟩) ∧
        (va * vb > 0 → bisectRoot f a b tol N = none))) ∧
    ((f a = none ∨ f b = none) → bisectRoot f a b tol N = none) ∧
    ((∃ mq ∈ (bisectRootState f a b tol N).mids, f mq = none) →
      bisectRoot f a b tol N = none) ∧
    (∀ r, bisectRoot f a b tol N = some r → r.ok = false →
      (r.tHours = ((bisectRootState f a b tol N).lo +
          (bisectRootState f a b tol N).hi) / 2 ∧ r.iterations = N)) := by
  refine ⟨?_, ?_, ?_, ?_⟩
  · intro va vb hva hvb
    refine ⟨?_, ?_, ?_⟩
    · intro h0
      rw [bisectRoot, bisectRootState]
      simp only [hva, hvb]
      rw [if_pos h0]
    · intro hne h0
      rw [bisectRoot, bisectRootState]
      simp only [hva, hvb]
      rw [if_neg hne, if_pos h0]
    · intro hpos
      have hva0 : va ≠ 0 := by
        rintro rfl; rw [zero_mul] at hpos; exact absurd hpos (lt_irrefl 0)
      have hvb0 : vb ≠ 0 := by
        rintro rfl; rw [mul_zero] at hpos; exact absurd hpos (lt_irrefl 0)
      rw [bisectRoot, bisectRootState]
      simp only [hva, hvb]
      rw [if_neg hva0, if_neg hvb0, if_pos hpos]
  · intro h
    rw [bisectRoot, bisectRootState]
    rcases h with h | h
    · rw [h]
    · rcases ha : f a with _ | va
      · rw [h]
      · rw [h]
  · intro h
    rcases ha : f a with _ | va
    · rw [bisectRoot, bisectRootState, ha]
    · rcases hb : f b with _ | vb
      · rw [bisectRoot, bisectRootState, ha, hb]
      · have hst : bisectRootState f a b tol N =
            (if va = 0 then ⟨some ⟨a, true, 0⟩, [], a, b⟩
              else if vb = 0 then ⟨some ⟨b, true, 0⟩, [], a, b⟩
              else if va * vb > 0 then ⟨none, [], a, b⟩
              else bisectIter f tol N N a b va vb) := by
          rw [bisectRootState]; simp only [ha, hb]
        rw [hst] at h
        rw [bisectRoot, hst]
        split_ifs at h ⊢ with h1 h2 h3
        · rcases h with ⟨mq, hmem, _⟩; simp at hmem
        · rcases h with ⟨mq, hmem, _⟩; simp at hmem
        · rfl
        · exact bisectIter_mids_none f tol N N a b va vb h
  · intro r hr hok
    rcases ha : f a with _ | va
    · rw [bisectRoot, bisectRootState, ha] at hr
      rcases hb : f b with _ | vb
      · rw [hb] at hr; simp at hr
      · rw [hb] at hr; simp at hr
    · rcases hb : f b with _ | vb
      · rw [bisectRoot, bisectRootState, ha, hb] at hr; simp at hr
      · have hst : bisectRootState f a b tol N =
            (if va = 0 then ⟨some ⟨a, true, 0⟩, [], a, b⟩
              else if vb = 0 then ⟨some ⟨b, true, 0⟩, [], a, b⟩
              else if va * vb > 0 then ⟨none, [], a, b⟩
              else bisectIter f tol N N a b va vb) := by
          rw [bisectRootState]; simp only [ha, hb]
        rw [bisectRoot, hst] at hr
        rw [hst]
        split_ifs at hr ⊢ with h1 h2 h3
        · rcases Option.some_inj.1 hr with rfl; simp at hok
        · rcases Option.some_inj.1 hr with rfl; simp at hok
        · exact bisectIter_notOk f tol N N a b va vb r hr hok

/-- Witness for `claimC5`: `f(t) = t - 2` on `[2, 5]` — the left endpoint
evaluates exactly to zero and is returned with `ok = true`,
`iterations = 0`. -/
theorem claimC5_witness :
    bisectRoot (fun t => some (t - 2)) 2 5 tolContact defaultMaxIter =
      some ⟨2, true, 0⟩ :=
  ((claimC5 (fun t => some (t - 2)) 2 5 tolContact defaultMaxIter).1 0 3
    (by with_unfolding_all decide) (by with_unfolding_all decide)).1 rfl

/-- The time record of seed scenario S5: `dateYmd = 2031-12-31`,
`t0TtHours = 23 + 59/60 + 59.9996/3600`, `deltaTSeconds = -2.2`. -/
def tr7 : RecTime :=
  { dateY := 2031, dateM := 12, dateD := 31,
    t0TtHours := 23 + 59 / 60 + 599996 / 10000 / 3600,
    deltaTSeconds := -(11 / 5) }

/-- **C7** (confirmed).  TT-instant construction carries the
hour/second overflow across the day boundary and rounds the
sub-millisecond fraction: for 2031-12-31 with
`t0TtHours = 23 + 59/60 + 59.9996/3600` the constructed TT instant is
civil 2032-01-01T00:00:00.000Z, and applying the TT→UTC conversion with
`deltaTSeconds = -2.2` lands on civil 2032-01-01T00:00:02.200Z. -/
theorem claimC7 :
    t0TtDateMs tr7 = dateUtcMs 2032 1 1 0 0 0 0 ∧
    ttToUtcUsingDeltaTMs tr7 (t0TtDateMs tr7) = dateUtcMs 2032 1 1 0 0 2 200 := by
  with_unfolding_all decide

theorem jsMod_nonneg (a n : ℚ) (hn : 0 < n) (ha : 0 ≤ a) :
    0 ≤ jsMod a n ∧ jsMod a n < n := by
  rw [jsMod, jsTrunc, if_pos (div_nonneg ha hn.le)]
  have h1 : (⌊a / n⌋ : ℚ) ≤ a / n := Int.floor_le _
  have h2 : a / n < ⌊a / n⌋ + 1 := Int.lt_floor_add_one _
  have h3 : n * (⌊a / n⌋ : ℚ) ≤ n * (a / n) :=
    mul_le_mul_of_nonneg_left h1 hn.le
  have h4 : n * (a / n) < n * ((⌊a / n⌋ : ℚ) + 1) :=
    mul_lt_mul_of_pos_left h2 hn
  have h5 : n * (a / n) = a := mul_div_cancel₀ a hn.ne'
  constructor <;> nlinarith

theorem jsMod_neg_eq (a n : ℚ) (hn : 0 < n) (ha : a < 0) :
    jsMod a n = -(jsMod (-a) n) := by
  have hdiv : a / n < 0 := div_neg_of_neg_of_pos ha hn
  have hdiv' : 0 ≤ -a / n := div_nonneg (by linarith) hn.le
  rw [jsMod, jsMod, jsTrunc, jsTrunc, if_neg (not_le.2 hdiv), if_pos hdiv',
    neg_div]
  push_cast
  ring

/-- **C8** (corrected).  Every overlay vertex — each one being built by
the `clamp`/`normLon` constructor used at all emission sites of the
ground-track overlay builder — has latitude in `[-89.9, 89.9]` and
longitude in `[-180, 180)`.  The specified half-open interval
`(-180, 180]` has the wrong closed end: `normLon` maps a longitude of
`180` to `-180` (see `claimC8_counterexample`) and never outputs
`+180`. -/
theorem claimC8_amended (lat lon : ℚ) :
    (-899 / 10 ≤ (overlayVertex lat lon).1 ∧
      (overlayVertex lat lon).1 ≤ 899 / 10) ∧
    (-180 ≤ (overlayVertex lat lon).2 ∧ (overlayVertex lat lon).2 < 180) := by
  constructor
  · simp only [overlayVertex, clampQ]
    constructor
    · exact le_max_left _ _
    · exact max_le (by norm_num) (min_le_left _ _)
  · simp only [overlayVertex, normLon]
    have h360 : (0 : ℚ) < 360 := by norm_num
    have hu : -360 < jsMod lon 360 ∧ jsMod lon 360 < 360 := by
      by_cases hc : 0 ≤ lon
      · have := jsMod_nonneg lon 360 h360 hc
        exact ⟨by linarith [this.1], this.2⟩
      · rw [jsMod_neg_eq lon 360 h360 (not_le.1 hc)]
        have := jsMod_nonneg (-lon) 360 h360 (by linarith [not_le.1 hc])
        exact ⟨by linarith [this.2], by linarith [this.1]⟩
    have hpos : 0 ≤ jsMod lon 360 + 540 := by linarith [hu.1]
    have hv := jsMod_nonneg (jsMod lon 360 + 540) 360 h360 hpos
    exact ⟨by linarith [hv.1], by linarith [hv.2]⟩

/-- **C8**, counterexample to the claim as stated: a vertex built from a
raw longitude of `180°` gets normalised longitude exactly `-180`, which
is outside the claimed interval `(-180, 180]`. -/
theorem claimC8_counterexample :
    (overlayVertex 0 180).2 = -180 ∧ ¬(-180 < (overlayVertex 0 180).2) := by
  have h : (overlayVertex 0 180).2 = -180 := by with_unfolding_all decide
  exact ⟨h, by rw [h]; norm_num⟩

/-- Two projector calls that agree on latitude, `d`, elevation and on
`sin H`, `cos H` agree entirely. -/
theorem observerToFundamental_congr (latDeg dDeg elevM : ℝ)
    {lon1 mu1 lon2 mu2 : ℝ}
    (hs : Real.sin (mu1 * deg2rad + lon1 * deg2rad) =
      Real.sin (mu2 * deg2rad + lon2 * deg2rad))
    (hc : Real.cos (mu1 * deg2rad + lon1 * deg2rad) =
      Real.cos (mu2 * deg2rad + lon2 * deg2rad)) :
    observerToFundamental latDeg lon1 dDeg mu1 elevM =
      observerToFundamental latDeg lon2 dDeg mu2 elevM := by
  simp only [observerToFundamental]
  rw [hs, hc]

/-- **C9** (confirmed).  The projector is periodic with period `360°` in
both the observer longitude and the Greenwich hour angle `μ`: shifting
either by `±360°` leaves `(ξ, η, ζ)` exactly unchanged (hence certainly
within `1e-12` per component). -/
theorem claimC9 (latDeg lonDeg dDeg muDeg elevM : ℝ) :
    observerToFundamental latDeg (lonDeg + 360) dDeg muDeg elevM =
        observerToFundamental latDeg lonDeg dDeg muDeg elevM ∧
    observerToFundamental latDeg (lonDeg - 360) dDeg muDeg elevM =
        observerToFundamental latDeg lonDeg dDeg muDeg elevM ∧
    observerToFundamental latDeg lonDeg dDeg (muDeg + 360) elevM =
        observerToFundamental latDeg lonDeg dDeg muDeg elevM ∧
    observerToFundamental latDeg lonDeg dDeg (muDeg - 360) elevM =
        observerToFundamental latDeg lonDeg dDeg muDeg elevM := by
  have hplus : ∀ x : ℝ, x + 360 * deg2rad =
      x + 2 * Real.pi := by
    intro x
    rw [deg2rad]
    ring
  refine ⟨?_, ?_, ?_, ?_⟩
  · refine observerToFundamental_congr latDeg dDeg elevM ?_ ?_
    · rw [add_mul, ← add_assoc, hplus, Real.sin_add_two_pi]
    · rw [add_mul, ← add_assoc, hplus, Real.cos_add_two_pi]
  · refine observerToFundamental_congr latDeg dDeg elevM ?_ ?_
    · rw [sub_mul, ← add_sub_assoc,
        show muDeg * deg2rad + lonDeg * deg2rad - 360 * deg2rad =
          muDeg * deg2rad + lonDeg * deg2rad - 2 * Real.pi from by
            rw [deg2rad]; ring,
        Real.sin_sub_two_pi]
    · rw [sub_mul, ← add_sub_assoc,
        show muDeg * deg2rad + lonDeg * deg2rad - 360 * deg2rad =
          muDeg * deg2rad + lonDeg * deg2rad - 2 * Real.pi from by
            rw [deg2rad]; ring,
        Real.cos_sub_two_pi]
  · refine observerToFundamental_congr latDeg dDeg elevM ?_ ?_
    · rw [add_mul,
        show muDeg * deg2rad + 360 * deg2rad + lonDeg * deg2rad =
          muDeg * deg2rad + lonDeg * deg2rad + 2 * Real.pi from by
            rw [deg2rad]; ring,
        Real.sin_add_two_pi]
    · rw [add_mul,
        show muDeg * deg2rad + 360 * deg2rad + lonDeg * deg2rad =
          muDeg * deg2rad + lonDeg * deg2rad + 2 * Real.pi from by
            rw [deg2rad]; ring,
        Real.cos_add_two_pi]
  · refine observerToFundamental_congr latDeg dDeg elevM ?_ ?_
    · rw [sub_mul,
        show muDeg * deg2rad - 360 * deg2rad + lonDeg * deg2rad =
          muDeg * deg2rad + lonDeg * deg2rad - 2 * Real.pi from by
            rw [deg2rad]; ring,
        Real.sin_sub_two_pi]
    · rw [sub_mul,
        show muDeg * deg2rad - 360 * deg2rad + lonDeg * deg2rad =
          muDeg * deg2rad + lonDeg * deg2rad - 2 * Real.pi from by
            rw [deg2rad]; ring,
        Real.cos_sub_two_pi]

/-- Seed scenario S4, supporting the collapsed-metrics constructions:
the projector at the origin observer with `d = μ = 0` gives exactly
`(ξ, η, ζ) = (0, 0, 1)`. -/
theorem observerToFundamental_zero :
    observerToFundamental 0 0 0 0 0 = ⟨0, 0, 1⟩ := by
  simp only [observerToFundamental, ObserverFundamental.mk.injEq]
  norm_num [Real.sin_zero, Real.cos_zero, Real.sqrt_one]

/-- A grazing configuration: `x = t`, `l1 = 1/10`, `l2 = 2 + t`
(`tanF1 = tanF2 = 0`).  Penumbral roots `±1/10`; the umbral metric has
exactly one root (at `-1`), so `c2` exists while `c3` does not. -/
def mGraze : ℚ → Metrics := collapsedMetrics [0, 1] [1 / 10] [2, 1] 0 0

/-- A central configuration: `x = t`, `l1 = 2`, `l2 = 1/10`.  Penumbral
roots `±2`, umbral roots `±1/10`, `L2obs > 0` at maximum — annular. -/
def mCentral : ℚ → Metrics := collapsedMetrics [0, 1] [2] [1 / 10] 0 0

/-- A degenerate record: all six coefficient arrays empty, `tanF1 = 1`,
`tanF2 = 0`, observer at the origin — the penumbral metric is the nonzero
constant `1`, the umbral metric is the constant `0`. -/
def mDegen : ℚ → Metrics := collapsedMetrics [] [] [] 1 0

/-- **C1** (corrected).  For every metrics function (hence for every
record/observer):
* whenever the returned `kindAtLocation` is total or annular, all five
  time fields are present, `C2 < C3`, and the selected maximum satisfies
  `C2 ≤ max ≤ C3 + 1e-12` (hours from t0) — the strict inequalities
  `C2 < max < C3` and the relations to `C1`, `C4` beyond their presence
  are not guaranteed;
* whenever it is partial, `C1`, `max` and `C4` are present with
  `C1 ≤ C4`, but `C2` (or `C3`) may additionally be present — the claim
  that C2/C3 are absent for a partial result is refuted by
  `claimC1_counterexample`, where exactly one umbral root exists. -/
theorem claimC1_amended (tr : RecTime) (m : ℚ → Metrics) :
    ((computeCircumstances tr m).kindAtLocation = LocKind.kTotal ∨
        (computeCircumstances tr m).kindAtLocation = LocKind.kAnnular →
      ((computeCircumstances tr m).c1Utc.isSome = true ∧
        (computeCircumstances tr m).c2Utc.isSome = true ∧
        (computeCircumstances tr m).maxUtc.isSome = true ∧
        (computeCircumstances tr m).c3Utc.isSome = true ∧
        (computeCircumstances tr m).c4Utc.isSome = true) ∧
      ∃ q2 mx q3,
        (solveContacts m).contacts.c2 = some q2 ∧
        (solveContacts m).contacts.max = some mx ∧
        (solveContacts m).contacts.c3 = some q3 ∧
        q2 < q3 ∧ q2 ≤ mx ∧ mx ≤ q3 + eps12) ∧
    ((computeCircumstances tr m).kindAtLocation = LocKind.kPartial →
      ((computeCircumstances tr m).c1Utc.isSome = true ∧
        (computeCircumstances tr m).maxUtc.isSome = true ∧
        (computeCircumstances tr m).c4Utc.isSome = true) ∧
      ∃ q1 q4,
        (solveContacts m).contacts.c1 = some q1 ∧
        (solveContacts m).contacts.c4 = some q4 ∧ q1 ≤ q4) := by
  constructor
  · intro hk
    rw [computeCircumstances_kind] at hk
    by_cases hv : visibleOf m = true
    · rw [if_pos hv] at hk
      have hc1 := solveContacts_central m hk
      obtain ⟨-, q2, q3, hq2, hq3, hlt⟩ := cond1_elim m hc1
      obtain ⟨q1, q4, h1, h4, -⟩ := visible_elim m hv
      obtain ⟨bt, hbt, -⟩ := solveContacts_max m
      have hb := scanMin_bounds (umbF m) q2 q3 stepFine
        (by norm_num [stepFine]) (le_of_lt hlt)
      refine ⟨⟨?_, ?_, ?_, ?_, ?_⟩,
        q2, (scanMin (umbF m) q2 q3 stepFine).1, q3, ?_, ?_, ?_, hlt,
        hb.1, hb.2⟩
      · rw [computeCircumstances_c1Utc, toUtcMs_isSome, h1]; rfl
      · rw [computeCircumstances_c2Utc, toUtcMs_isSome, hq2]; rfl
      · rw [computeCircumstances_maxUtc, hbt]; rfl
      · rw [computeCircumstances_c3Utc, toUtcMs_isSome, hq3]; rfl
      · rw [computeCircumstances_c4Utc, toUtcMs_isSome, h4]; rfl
      · rw [solveContacts_c2]; exact hq2
      · rw [solveContacts, if_pos hc1, hq2, hq3]; rfl
      · rw [solveContacts_c3]; exact hq3
    · rw [if_neg hv] at hk
      rcases hk with hk | hk <;> simp at hk
  · intro hk
    rw [computeCircumstances_kind] at hk
    by_cases hv : visibleOf m = true
    · obtain ⟨q1, q4, h1, h4, hle⟩ := visible_elim m hv
      obtain ⟨bt, hbt, -⟩ := solveContacts_max m
      refine ⟨⟨?_, ?_, ?_⟩, q1, q4, ?_, ?_, hle⟩
      · rw [computeCircumstances_c1Utc, toUtcMs_isSome, h1]; rfl
      · rw [computeCircumstances_maxUtc, hbt]; rfl
      · rw [computeCircumstances_c4Utc, toUtcMs_isSome, h4]; rfl
      · rw [solveContacts_c1]; exact h1
      · rw [solveContacts_c4]; exact h4
    · rw [if_neg hv] at hk; simp at hk

set_option maxRecDepth 100000 in
set_option maxHeartbeats 4000000 in
/-- **C1**, counterexample to the claim as stated: in the grazing
configuration `mGraze` the solver classifies the location `partial`, yet
the `c2Utc` field is present (the umbral metric has exactly one root,
assigned to `c2`). -/
theorem claimC1_counterexample :
    (computeCircumstances trEx mGraze).kindAtLocation = LocKind.kPartial ∧
    (computeCircumstances trEx mGraze).c2Utc ≠ none := by
  with_unfolding_all decide

set_option maxRecDepth 100000 in
set_option maxHeartbeats 4000000 in
/-- Witness for `claimC1_amended`: the partial clause instantiated at the
grazing configuration. -/
theorem claimC1_witness :
    ((computeCircumstances trEx mGraze).c1Utc.isSome = true ∧
      (computeCircumstances trEx mGraze).maxUtc.isSome = true ∧
      (computeCircumstances trEx mGraze).c4Utc.isSome = true) ∧
    ∃ q1 q4,
      (solveContacts mGraze).contacts.c1 = some q1 ∧
      (solveContacts mGraze).contacts.c4 = some q4 ∧ q1 ≤ q4 :=
  (claimC1_amended trEx mGraze).2 (by with_unfolding_all decide)

/-- **C2** (confirmed).  Magnitude behaviour of `computeCircumstances`,
for every metrics function whose `delta` component is either everywhere
finite or everywhere non-finite (true of every actual record/observer,
since `Δ = hypot(x − ξ, y − η)` of polynomial values is NaN for some `t`
only when a coefficient itself is NaN, making it NaN for all `t`):
magnitude is omitted exactly when the result is not visible or `L1obs`
at the max-time evaluation is non-finite or `≤ 0`; when defined it equals
`1` for a total/annular classification and
`clamp((L1obs − Δ)/L1obs, 0, 1)` for a partial one, and it always lies in
`[0, 1]`. -/
theorem claimC2 (tr : RecTime) (m : ℚ → Metrics)
    (hdelta : (∀ t, ((m t).delta).isSome = true) ∨ ∀ t, (m t).delta = none) :
    (((computeCircumstances tr m).magnitude = none) ↔
      ((computeCircumstances tr m).visible = false ∨
        (maxEvalOf m).L1obs = none ∨
        ∃ l, (maxEvalOf m).L1obs = some l ∧ l ≤ 0)) ∧
    ((computeCircumstances tr m).kindAtLocation = LocKind.kTotal ∨
        (computeCircumstances tr m).kindAtLocation = LocKind.kAnnular →
      (computeCircumstances tr m).magnitude ≠ none →
      (computeCircumstances tr m).magnitude = some 1) ∧
    ((computeCircumstances tr m).kindAtLocation = LocKind.kPartial →
      ∀ q, (computeCircumstances tr m).magnitude = some q →
        ∃ l dl, (maxEvalOf m).L1obs = some l ∧ 0 < l ∧
          (maxEvalOf m).delta = some dl ∧
          q = max 0 (min 1 ((l - dl) / l))) ∧
    (∀ q, (computeCircumstances tr m).magnitude = some q →
      0 ≤ q ∧ q ≤ 1) := by
  have hm := computeCircumstances_magnitude tr m
  by_cases hv : visibleOf m = true
  · have hkr : (computeCircumstances tr m).kindAtLocation =
        (solveContacts m).kindAtLocation := by
      rw [computeCircumstances_kind, if_pos hv]
    have hrv : (computeCircumstances tr m).visible = true := by
      rw [computeCircumstances_visible]; exact hv
    rcases hl1 : (maxEvalOf m).L1obs with _ | l1o
    · have hmag : (computeCircumstances tr m).magnitude = none := by
        rw [hm, if_neg (by simp [hv]), hl1]
      refine ⟨?_, ?_, ?_, ?_⟩
      · rw [hmag]
        exact ⟨fun _ => Or.inr (Or.inl rfl), fun _ => rfl⟩
      · intro _ hne; exact absurd hmag hne
      · intro _ q hq; rw [hmag] at hq; exact absurd hq (by simp)
      · intro q hq; rw [hmag] at hq; exact absurd hq (by simp)
    · have hstep : (computeCircumstances tr m).magnitude =
          (if l1o ≤ 0 then none
            else if (solveContacts m).kindAtLocation = LocKind.kTotal ∨
                (solveContacts m).kindAtLocation = LocKind.kAnnular then
              some 1
            else
              match (maxEvalOf m).delta with
              | some dl => some (max 0 (min 1 ((l1o - dl) / l1o)))
              | none => none) := by
        rw [hm, if_neg (by simp [hv]), hl1]
      by_cases hle : l1o ≤ 0
      · have hmag : (computeCircumstances tr m).magnitude = none := by
          rw [hstep, if_pos hle]
        refine ⟨?_, ?_, ?_, ?_⟩
        · rw [hmag]
          exact ⟨fun _ => Or.inr (Or.inr ⟨l1o, rfl, hle⟩), fun _ => rfl⟩
        · intro _ hne; exact absurd hmag hne
        · intro _ q hq; rw [hmag] at hq; exact absurd hq (by simp)
        · intro q hq; rw [hmag] at hq; exact absurd hq (by simp)
      · have hpos : 0 < l1o := not_le.1 hle
        by_cases hcentral : (solveContacts m).kindAtLocation = LocKind.kTotal ∨
            (solveContacts m).kindAtLocation = LocKind.kAnnular
        · have hmag : (computeCircumstances tr m).magnitude = some 1 := by
            rw [hstep, if_neg hle, if_pos hcentral]
          refine ⟨?_, ?_, ?_, ?_⟩
          · rw [hmag]
            constructor
            · intro h; exact absurd h (by simp)
            · rintro (h | h | ⟨l, hl, hle'⟩)
              · rw [hrv] at h; exact absurd h (by simp)
              · exact absurd h (by simp)
              · have : l1o = l := Option.some_inj.1 hl
                exact absurd hle' (by rw [← this]; exact not_le.2 hpos)
          · intro _ _; exact hmag
          · intro hk q hq
            rw [hkr] at hk
            rcases hcentral with hc | hc <;> rw [hk] at hc <;> simp at hc
          · intro q hq
            rw [hmag] at hq
            obtain rfl : (1 : ℚ) = q := Option.some_inj.1 hq
            norm_num
        · rcases hdelta with hd | hd
          · obtain ⟨bt, hbt, hveq⟩ := maxEvalOf_eq m
            obtain ⟨dl, hdl⟩ : ∃ dl, (maxEvalOf m).delta = some dl := by
              rw [hveq]; exact Option.isSome_iff_exists.1 (hd bt)
            have hmag : (computeCircumstances tr m).magnitude =
                some (max 0 (min 1 ((l1o - dl) / l1o))) := by
              rw [hstep, if_neg hle, if_neg hcentral, hdl]
            refine ⟨?_, ?_, ?_, ?_⟩
            · rw [hmag]
              constructor
              · intro h; exact absurd h (by simp)
              · rintro (h | h | ⟨l, hl, hle'⟩)
                · rw [hrv] at h; exact absurd h (by simp)
                · exact absurd h (by simp)
                · have : l1o = l := Option.some_inj.1 hl
                  exact absurd hle' (by rw [← this]; exact not_le.2 hpos)
            · intro hk _
              rw [hkr] at hk
              exact absurd hk hcentral
            · intro _ q hq
              rw [hmag] at hq
              exact ⟨l1o, dl, rfl, hpos, hdl, (Option.some_inj.1 hq).symm⟩
            · intro q hq
              rw [hmag] at hq
              obtain rfl := (Option.some_inj.1 hq)
              constructor
              · exact le_max_left 0 _
              · exact max_le (by norm_num) (min_le_left _ _)
          · exact absurd (visibleOf_delta_none m hd) (by simp [hv])
  · have hvf : visibleOf m = false := by simpa using hv
    have hmag : (computeCircumstances tr m).magnitude = none := by
      rw [hm, if_pos hvf]
    refine ⟨?_, ?_, ?_, ?_⟩
    · rw [hmag]
      constructor
      · intro _
        left
        rw [computeCircumstances_visible]; exact hvf
      · intro _; rfl
    · intro hk _
      rw [computeCircumstances_kind, if_neg hv] at hk
      rcases hk with hk | hk <;> simp at hk
    · intro _ q hq; rw [hmag] at hq; exact absurd hq (by simp)
    · intro q hq; rw [hmag] at hq; exact absurd hq (by simp)

set_option maxRecDepth 100000 in
set_option maxHeartbeats 4000000 in
/-- Witness for `claimC2` at the annular configuration `mCentral`: the
magnitude is defined, equals `1`, and lies within `[0, 1]` by the range
clause of the theorem. -/
theorem claimC2_witness :
    (computeCircumstances trEx mCentral).magnitude = some 1 ∧
    (0 ≤ (1 : ℚ) ∧ (1 : ℚ) ≤ 1) :=
  ⟨by with_unfolding_all decide,
    (claimC2 trEx mCentral (Or.inl fun t => rfl)).2.2.2 1
      (by with_unfolding_all decide)⟩

/-- **C3** (confirmed).  `durationSeconds` is present exactly when both
umbral contact times `C2`, `C3` exist with `C3 > C2`, in which case it
equals `(C3 − C2)·3600` seconds, a positive real, and the `c2Utc`/`c3Utc`
output fields are present as well. -/
theorem claimC3 (tr : RecTime) (m : ℚ → Metrics) :
    (∀ d, (computeCircumstances tr m).durationSeconds = some d →
      ∃ q2 q3, (solveContacts m).contacts.c2 = some q2 ∧
        (solveContacts m).contacts.c3 = some q3 ∧ q3 > q2 ∧
        d = (q3 - q2) * 3600 ∧ 0 < d ∧
        (computeCircumstances tr m).c2Utc.isSome = true ∧
        (computeCircumstances tr m).c3Utc.isSome = true) ∧
    (∀ q2 q3, (solveContacts m).contacts.c2 = some q2 →
      (solveContacts m).contacts.c3 = some q3 → q3 > q2 →
      (computeCircumstances tr m).durationSeconds =
        some ((q3 - q2) * 3600)) ∧
    ((computeCircumstances tr m).durationSeconds = none →
      ∀ q2 q3, (solveContacts m).contacts.c2 = some q2 →
        (solveContacts m).contacts.c3 = some q3 → q3 ≤ q2) := by
  have hd := computeCircumstances_duration tr m
  refine ⟨?_, ?_, ?_⟩
  · intro d hdur
    rw [hd] at hdur
    rcases hc2 : c2Of m with _ | q2 <;> rcases hc3 : c3Of m with _ | q3 <;>
      rw [hc2, hc3] at hdur
    · exact absurd hdur (by simp)
    · exact absurd hdur (by simp)
    · exact absurd hdur (by simp)
    · replace hdur : (if q3 > q2 then some ((q3 - q2) * 3600) else none) =
          some d := hdur
      by_cases hgt : q3 > q2
      · rw [if_pos hgt] at hdur
        have hdd : (q3 - q2) * 3600 = d := Option.some_inj.1 hdur
        refine ⟨q2, q3, ?_, ?_, hgt, hdd.symm, ?_, ?_, ?_⟩
        · rw [solveContacts_c2]; exact hc2
        · rw [solveContacts_c3]; exact hc3
        · rw [← hdd]
          have : 0 < q3 - q2 := sub_pos.2 hgt
          positivity
        · rw [computeCircumstances_c2Utc, toUtcMs_isSome, hc2]; rfl
        · rw [computeCircumstances_c3Utc, toUtcMs_isSome, hc3]; rfl
      · rw [if_neg hgt] at hdur
        exact absurd hdur (by simp)
  · intro q2 q3 h2 h3 hgt
    rw [solveContacts_c2] at h2
    rw [solveContacts_c3] at h3
    rw [hd, h2, h3]
    show (if q3 > q2 then some ((q3 - q2) * 3600) else none) =
      some ((q3 - q2) * 3600)
    rw [if_pos hgt]
  · intro hnone q2 q3 h2 h3
    rw [solveContacts_c2] at h2
    rw [solveContacts_c3] at h3
    rw [hd, h2, h3] at hnone
    replace hnone : (if q3 > q2 then some ((q3 - q2) * 3600) else none) =
        none := hnone
    by_contra hgt
    rw [if_pos (not_le.1 hgt)] at hnone
    exact absurd hnone (by simp)

set_option maxRecDepth 100000 in
set_option maxHeartbeats 4000000 in
/-- Witness for `claimC3` at the annular configuration `mCentral`:
`C2 = -1/10`, `C3 = 1/10`, so the central duration is
`(1/10 − (−1/10))·3600 = 720` seconds. -/
theorem claimC3_witness :
    (computeCircumstances trEx mCentral).durationSeconds =
      some ((1 / 10 - -(1 / 10)) * 3600) :=
  (claimC3 trEx mCentral).2.1 (-(1 / 10)) (1 / 10)
    (by with_unfolding_all decide) (by with_unfolding_all decide)
    (by norm_num)

/-- **C6** (corrected).  For a record whose coefficient arrays are all
empty, all zero or all NaN, both metric functions are constant in time
(the projector output is time-independent since `d` and `μ` are
constants).  Provided neither constant metric `Δ − L1obs` nor
`Δ − |L2obs|` is exactly zero — and unconditionally in the all-NaN case —
`computeCircumstances` returns `visible = false`,
`kindAtLocation = none`, no C-times, no duration, no magnitude, and a
defined `maxUtc` from the Δ-minimum fallback scan.  When a constant
metric is exactly zero (e.g. an all-zero record with `tanF1 = 0`, or with
`tanF2 = 0`, seen from the origin), every scan sample is an exact root
and the result instead reports visibility or C-times
(`claimC6_counterexample`). -/
theorem claimC6_amended (tr : RecTime) :
    (∀ dl l1o l2o : ℚ, dl - l1o ≠ 0 → dl - |l2o| ≠ 0 →
      ((computeCircumstances tr (constMetrics dl l1o l2o)).visible = false ∧
        (computeCircumstances tr (constMetrics dl l1o l2o)).kindAtLocation =
          LocKind.kNone ∧
        (computeCircumstances tr (constMetrics dl l1o l2o)).c1Utc = none ∧
        (computeCircumstances tr (constMetrics dl l1o l2o)).c2Utc = none ∧
        (computeCircumstances tr (constMetrics dl l1o l2o)).c3Utc = none ∧
        (computeCircumstances tr (constMetrics dl l1o l2o)).c4Utc = none ∧
        (computeCircumstances tr (constMetrics dl l1o l2o)).durationSeconds =
          none ∧
        (computeCircumstances tr (constMetrics dl l1o l2o)).magnitude = none ∧
        (computeCircumstances tr (constMetrics dl l1o l2o)).maxUtc.isSome =
          true)) ∧
    ((computeCircumstances tr nanMetrics).visible = false ∧
      (computeCircumstances tr nanMetrics).kindAtLocation = LocKind.kNone ∧
      (computeCircumstances tr nanMetrics).c1Utc = none ∧
      (computeCircumstances tr nanMetrics).c2Utc = none ∧
      (computeCircumstances tr nanMetrics).c3Utc = none ∧
      (computeCircumstances tr nanMetrics).c4Utc = none ∧
      (computeCircumstances tr nanMetrics).durationSeconds = none ∧
      (computeCircumstances tr nanMetrics).magnitude = none ∧
      (computeCircumstances tr nanMetrics).maxUtc.isSome = true) := by
  constructor
  · intro dl l1o l2o hne1 hne2
    have hpenRoots : penRoots (constMetrics dl l1o l2o) = [] := by
      rw [penRoots,
        findBrackets_const (penF (constMetrics dl l1o l2o)) tMin tMax
          stepBracket (dl - l1o) (fun t => rfl) hne1]
      rfl
    have humbRoots : umbRoots (constMetrics dl l1o l2o) = [] := by
      rw [umbRoots,
        findBrackets_const (umbF (constMetrics dl l1o l2o)) tMin tMax
          stepBracket (dl - |l2o|) (fun t => rfl) hne2]
      rfl
    have hc1 : c1Of (constMetrics dl l1o l2o) = none := by
      rw [c1Of, hpenRoots]; rfl
    have hc4 : c4Of (constMetrics dl l1o l2o) = none := by
      rw [c4Of, hpenRoots]; simp
    have hc2 : c2Of (constMetrics dl l1o l2o) = none := by
      rw [c2Of, humbRoots]; rfl
    have hc3 : c3Of (constMetrics dl l1o l2o) = none := by
      rw [c3Of, humbRoots]; simp
    have hvis : visibleOf (constMetrics dl l1o l2o) = false := by
      rw [visibleOf, hc1]; rfl
    obtain ⟨bt, hbt, -⟩ := solveContacts_max (constMetrics dl l1o l2o)
    refine ⟨?_, ?_, ?_, ?_, ?_, ?_, ?_, ?_, ?_⟩
    · rw [computeCircumstances_visible]; exact hvis
    · rw [computeCircumstances_kind]; simp [hvis]
    · rw [computeCircumstances_c1Utc, hc1]; rfl
    · rw [computeCircumstances_c2Utc, hc2]; rfl
    · rw [computeCircumstances_c3Utc, hc3]; rfl
    · rw [computeCircumstances_c4Utc, hc4]; rfl
    · rw [computeCircumstances_duration, hc2, hc3]
    · rw [computeCircumstances_magnitude, if_pos hvis]
    · rw [computeCircumstances_maxUtc, hbt]; rfl
  · have hpenRoots : penRoots nanMetrics = [] := by
      rw [penRoots,
        findBrackets_none (penF nanMetrics) tMin tMax stepBracket
          (fun t => rfl)]
      rfl
    have humbRoots : umbRoots nanMetrics = [] := by
      rw [umbRoots,
        findBrackets_none (umbF nanMetrics) tMin tMax stepBracket
          (fun t => rfl)]
      rfl
    have hc1 : c1Of nanMetrics = none := by rw [c1Of, hpenRoots]; rfl
    have hc4 : c4Of nanMetrics = none := by rw [c4Of, hpenRoots]; simp
    have hc2 : c2Of nanMetrics = none := by rw [c2Of, humbRoots]; rfl
    have hc3 : c3Of nanMetrics = none := by rw [c3Of, humbRoots]; simp
    have hvis : visibleOf nanMetrics = false := by rw [visibleOf, hc1]; rfl
    obtain ⟨bt, hbt, -⟩ := solveContacts_max nanMetrics
    refine ⟨?_, ?_, ?_, ?_, ?_, ?_, ?_, ?_, ?_⟩
    · rw [computeCircumstances_visible]; exact hvis
    · rw [computeCircumstances_kind]; simp [hvis]
    · rw [computeCircumstances_c1Utc, hc1]; rfl
    · rw [computeCircumstances_c2Utc, hc2]; rfl
    · rw [computeCircumstances_c3Utc, hc3]; rfl
    · rw [computeCircumstances_c4Utc, hc4]; rfl
    · rw [computeCircumstances_duration, hc2, hc3]
    · rw [computeCircumstances_magnitude, if_pos hvis]
    · rw [computeCircumstances_maxUtc, hbt]; rfl

set_option maxRecDepth 100000 in
set_option maxHeartbeats 8000000 in
/-- **C6**, counterexample to the claim as stated: a record with all six
coefficient arrays empty but `tanF1 = 1`, `tanF2 = 0`, observed from the
origin (`mDegen`), yields the constant umbral metric `0`, so every scan
sample is an exact umbral root: the result has `visible = false` and
`kindAtLocation = none` as claimed, but `c2Utc`, `c3Utc` and
`durationSeconds` are all present, contradicting the claimed absence of
all C-times. -/
theorem claimC6_counterexample :
    (computeCircumstances trEx mDegen).visible = false ∧
    (computeCircumstances trEx mDegen).kindAtLocation = LocKind.kNone ∧
    (computeCircumstances trEx mDegen).c2Utc ≠ none ∧
    (computeCircumstances trEx mDegen).c3Utc ≠ none ∧
    (computeCircumstances trEx mDegen).durationSeconds ≠ none := by
  with_unfolding_all decide

/-- Witness for `claimC6_amended` at `Δ = 0`, `L1obs = -1`,
`L2obs = -5`. -/
theorem claimC6_witness :
    ((0 : ℚ) - (-1) ≠ 0) ∧ ((0 : ℚ) - |(-5 : ℚ)| ≠ 0) ∧
    ((computeCircumstances trEx (constMetrics 0 (-1) (-5))).visible = false ∧
      (computeCircumstances trEx (constMetrics 0 (-1) (-5))).kindAtLocation =
        LocKind.kNone ∧
      (computeCircumstances trEx (constMetrics 0 (-1) (-5))).c1Utc = none ∧
      (computeCircumstances trEx (constMetrics 0 (-1) (-5))).c2Utc = none ∧
      (computeCircumstances trEx (constMetrics 0 (-1) (-5))).c3Utc = none ∧
      (computeCircumstances trEx (constMetrics 0 (-1) (-5))).c4Utc = none ∧
      (computeCircumstances trEx (constMetrics 0 (-1) (-5))).durationSeconds =
        none ∧
      (computeCircumstances trEx (constMetrics 0 (-1) (-5))).magnitude =
        none ∧
      (computeCircumstances trEx (constMetrics 0 (-1) (-5))).maxUtc.isSome =
        true) :=
  ⟨by norm_num, by norm_num,
    (claimC6_amended trEx).1 0 (-1) (-5) (by norm_num) (by norm_num)⟩

/-- **C10** (confirmed).  In every returned `Circumstances`,
`visible = false` holds exactly when `kindAtLocation = none`: a visible
result is always classified partial, total or annular, and a non-visible
result is always classified none (the output stage overrides whatever
kind the solver computed). -/
theorem claimC10 (tr : RecTime) (m : ℚ → Metrics) :
    (computeCircumstances tr m).visible = false ↔
      (computeCircumstances tr m).kindAtLocation = LocKind.kNone := by
  rw [computeCircumstances_visible, computeCircumstances_kind]
  constructor
  · intro hv
    simp [hv]
  · intro hk
    by_cases hv : visibleOf m = true
    · rw [if_pos hv] at hk
      exact absurd hk (solveContacts_visible_kind m hv)
    · simpa using hv

end EclipseTimer
